import Mathlib

/-!
# Web3TCP ICMPv6 Neighbor Discovery core: a shallow embedding

This file embeds the ICMPv6 Neighbor Discovery cache (`icmp6/nd_cache.py`)
and the inbound ICMPv6 packet handler (`icmp6/phrx.py`) of the Web3TCP
stack, together with the address arithmetic they use from
`lib/ip6_address.py`, and proves the specified properties about them.

Modelling conventions:
* IPv6 addresses and MAC addresses are natural numbers (the source stores
  them as Python ints in `Ip6Address._address` / `MacAddress`).
* Timestamps (`time.time()`) are integers; each operation that reads the
  clock takes the current time `now` as an explicit argument.
* The neighbor cache (a Python dict) is an association list with
  insertion-ordered keys; dict assignment replaces the value in place for
  an existing key and appends for a new key, and `pop` removes the entry.
* Packet emissions (`stack.packet_handler._phtx_icmp6(...)` calls) are
  returned as an explicit list of `Icmp6Tx` records.
-/

set_option autoImplicit false

namespace Web3TCP

/-! ## IPv6 address operations (`lib/ip6_address.py`) -/

/-- `Ip6Address("::")`, the unspecified address. -/
def ip6Unspecified : Nat := 0

/-- `IpAddress.is_unspecified` for the source's int-encoded address:
the address is zero. -/
def isUnspecified (a : Nat) : Bool := a == 0

/-- `Ip6Address.is_multicast`: the address lies in `ff00::/8`; the bounds
are the decimal literals used by the source's `range(...)` test. -/
def isMulticast (a : Nat) : Bool :=
  decide (338953138925153547590470800371487866880 ≤ a ∧
          a < 340282366920938463463374607431768211456)

/-- `int(Ip6Address("ff02::1:ff00:0"))`, the solicited-node multicast base. -/
def ip6SnmBase : Nat := 0xff0200000000000000000001ff000000

/-- `int(Ip6Address("ff02::1"))`, the all-nodes multicast address. -/
def ip6AllNodes : Nat := 0xff020000000000000000000000000001

/-- `Ip6Address.solicited_node_multicast`:
`self._address & 0xFFFFFF | int(Ip6Address("ff02::1:ff00:0"))`. -/
def solicitedNodeMulticast (a : Nat) : Nat :=
  (a &&& 0xFFFFFF) ||| ip6SnmBase

/-- `Ip6Network`: a network address (already masked) plus its mask, both
int-encoded as in the source. -/
structure Ip6Network where
  address : Nat
  mask : Nat
deriving Repr, DecidableEq

/-- Modelled from the spec: the membership test `target in host.network`
(`IpNetwork.__contains__` lives in `lib/ip_address.py`, which is not among
the provided sources). Per the spec, a HostAddress matches when its
`network` contains the target key: the target's bits under the network
mask coincide with the (masked) network address. -/
def Ip6Network.containsAddr (n : Ip6Network) (a : Nat) : Bool :=
  (a &&& n.mask) == n.address

/-- `Ip6Host`: a host address together with its network. -/
structure Ip6Host where
  address : Nat
  network : Ip6Network
deriving Repr, DecidableEq

/-! ## The neighbor cache data model (`icmp6/nd_cache.py`) -/

/-- `NdCache.CacheEntry`: MAC binding with freshness metadata. -/
structure CacheEntry where
  mac_address : Nat
  permanent : Bool
  creation_time : Int
  hit_count : Nat
deriving Repr, DecidableEq

/-- `NdCache.CacheEntry.__init__` at its only call site
`self.CacheEntry(mac_address)`: `permanent` keeps its default `False`,
`creation_time = time.time()` (passed here as `now`), `hit_count = 0`. -/
def mkCacheEntry (mac : Nat) (now : Int) : CacheEntry :=
  { mac_address := mac, permanent := false, creation_time := now, hit_count := 0 }

/-- The cache dict `NdCache.nd_cache`, as an insertion-ordered
association list with (in well-formed states) pairwise distinct keys. -/
abbrev NdCacheMap := List (Nat × CacheEntry)

/-- Dict read `nd_cache.get(k, None)`: first binding of key `k`. -/
def cFind : NdCacheMap → Nat → Option CacheEntry
  | [], _ => none
  | p :: t, k => if p.1 = k then some p.2 else cFind t k

/-- Dict write `nd_cache[k] = e`: replace in place if the key is present,
append otherwise. -/
def cSet : NdCacheMap → Nat → CacheEntry → NdCacheMap
  | [], k, e => [(k, e)]
  | p :: t, k, e => if p.1 = k then (k, e) :: t else p :: cSet t k e

/-- Dict removal `nd_cache.pop(k)`: drop the binding of key `k`. -/
def cPop : NdCacheMap → Nat → NdCacheMap
  | [], _ => []
  | p :: t, k => if p.1 = k then t else p :: cPop t k

/-- `list(self.nd_cache)`: the snapshot of keys in insertion order. -/
def cKeys (c : NdCacheMap) : List Nat := c.map Prod.fst

/-! ## Outbound ICMPv6 messages

A call to `stack.packet_handler._phtx_icmp6(...)` is recorded as an
`Icmp6Tx` value: the IPv6 source, destination and hop limit, plus the
ICMPv6 type with its typed keyword arguments. -/

/-- An ND option attached to an outbound message (`icmp6.fpa.Icmp6NdOptSLLA`
/ `Icmp6NdOptTLLA`, carrying a MAC address). -/
inductive NdOpt where
  | slla (mac : Nat)
  | tlla (mac : Nat)
deriving Repr, DecidableEq

/-- The ICMPv6 type plus its type-specific keyword arguments. -/
inductive Icmp6TxBody where
  | neighborSolicitation (ns_target_address : Nat) (nd_options : List NdOpt)
  | neighborAdvertisement (na_flag_s na_flag_o : Bool)
      (na_target_address : Nat) (nd_options : List NdOpt)
  | echoReply (ec_id ec_seq : Nat) (ec_data : List Nat)
deriving Repr, DecidableEq

/-- One `_phtx_icmp6` call. -/
structure Icmp6Tx where
  ip6_src : Nat
  ip6_dst : Nat
  ip6_hop : Nat
  body : Icmp6TxBody
deriving Repr, DecidableEq

/-! ## Neighbor cache operations (`icmp6/nd_cache.py`) -/

/-- `NdCache._send_icmp6_neighbor_solicitation`: scan
`stack.packet_handler.ip6_host` keeping the address of each host whose
network contains the target (so the LAST match wins, starting from `::`),
then emit the NS to the target's solicited-node multicast address with
hop limit 255 and an SLLA option carrying the stack's MAC. -/
def sendIcmp6NeighborSolicitation (ip6_host : List Ip6Host) (mac_unicast : Nat)
    (icmp6_ns_target_address : Nat) : Icmp6Tx :=
  let ip6_src := ip6_host.foldl
    (fun src h => if h.network.containsAddr icmp6_ns_target_address then h.address else src)
    ip6Unspecified
  { ip6_src := ip6_src
    ip6_dst := solicitedNodeMulticast icmp6_ns_target_address
    ip6_hop := 255
    body := .neighborSolicitation icmp6_ns_target_address [.slla mac_unicast] }

/-- `NdCache.add_entry`: `self.nd_cache[ip6_address] = self.CacheEntry(mac_address)`. -/
def addEntry (now : Int) (c : NdCacheMap) (ip6_address mac_address : Nat) : NdCacheMap :=
  cSet c ip6_address (mkCacheEntry mac_address now)

/-- The outcome of `NdCache.find_entry`: the returned value, the cache
after the call, and the packets emitted during the call. -/
structure FindResult where
  result : Option Nat
  cache : NdCacheMap
  txs : List Icmp6Tx
deriving Repr, DecidableEq

/-- `NdCache.find_entry`: on a hit increment the entry's `hit_count` and
return its MAC; on a miss emit one Neighbor Solicitation for the address
and return `None`. -/
def findEntry (ip6_host : List Ip6Host) (mac_unicast : Nat)
    (c : NdCacheMap) (ip6_address : Nat) : FindResult :=
  match cFind c ip6_address with
  | some nd_entry =>
      { result := some nd_entry.mac_address
        cache := cSet c ip6_address { nd_entry with hit_count := nd_entry.hit_count + 1 }
        txs := [] }
  | none =>
      { result := none
        cache := c
        txs := [sendIcmp6NeighborSolicitation ip6_host mac_unicast ip6_address] }

/-- One iteration of the `for ip6_address in list(self.nd_cache)` loop of
`NdCache._maintain_cache`, acting on the (cache, emitted packets)
accumulator. Permanent entries are skipped; an entry older than
`nd_cache_entry_max_age` is popped; an entry in the trailing refresh
window with a nonzero `hit_count` has its `hit_count` reset to 0 and a
Neighbor Solicitation emitted for its key. -/
def maintainStep (now nd_cache_entry_max_age nd_cache_entry_refresh_time : Int)
    (ip6_host : List Ip6Host) (mac_unicast : Nat)
    (acc : NdCacheMap × List Icmp6Tx) (ip6_address : Nat) :
    NdCacheMap × List Icmp6Tx :=
  match cFind acc.1 ip6_address with
  | none => acc
  | some e =>
    if e.permanent then acc
    else if now - e.creation_time > nd_cache_entry_max_age then
      (cPop acc.1 ip6_address, acc.2)
    else if now - e.creation_time > nd_cache_entry_max_age - nd_cache_entry_refresh_time
        ∧ e.hit_count ≠ 0 then
      (cSet acc.1 ip6_address { e with hit_count := 0 },
       acc.2 ++ [sendIcmp6NeighborSolicitation ip6_host mac_unicast ip6_address])
    else acc

/-- `NdCache._maintain_cache`: fold the per-key step over the snapshot of
the cache's keys, collecting emitted packets. -/
def maintainCache (now nd_cache_entry_max_age nd_cache_entry_refresh_time : Int)
    (ip6_host : List Ip6Host) (mac_unicast : Nat) (c : NdCacheMap) :
    NdCacheMap × List Icmp6Tx :=
  (cKeys c).foldl
    (maintainStep now nd_cache_entry_max_age nd_cache_entry_refresh_time ip6_host mac_unicast)
    (c, [])

/-! ## Inbound ICMPv6 handling (`icmp6/phrx.py`) -/

/-- A successfully parsed inbound ICMPv6 packet, dispatched on
`packet_rx.icmp6.type`, carrying the fields each branch of `_phrx_icmp6`
reads. ND options are `Option`-valued: the parser properties
`nd_opt_slla` / `nd_opt_tlla` yield the MAC when the option is present
and `None` otherwise. -/
inductive Icmp6Rx where
  | neighborSolicitation (ip6_src ns_target_address : Nat) (nd_opt_slla : Option Nat)
  | neighborAdvertisement (ip6_src na_target_address : Nat) (nd_opt_tlla : Option Nat)
  | routerSolicitation (ip6_src : Nat)
  | routerAdvertisement (ip6_src : Nat) (nd_opt_pi : List Nat)
  | echoRequest (ip6_src ip6_dst ec_id ec_seq : Nat) (ec_data : List Nat)
  | unreachable (un_data : List Nat)
deriving Repr, DecidableEq

/-- The fields of the packet-handler object (`self`) that `_phrx_icmp6`
reads or writes: the ND cache, the stack's unicast addresses and host
registry, its MAC, the DAD candidate/state, and the RA state. -/
structure PacketHandler where
  icmp6_nd_cache : NdCacheMap
  ip6_unicast : List Nat
  ip6_host : List Ip6Host
  mac_unicast : Nat
  ip6_unicast_candidate : Option Nat
  icmp6_nd_dad_tlla : Option Nat
  event_icmp6_nd_dad_released : Bool
  icmp6_ra_prefixes : List (Nat × Nat)
  event_icmp6_ra_released : Bool
deriving Repr, DecidableEq

/-- The outcome of `_phrx_icmp6`: the handler state after the call, the
packets emitted, and the socket notified via `notify_unreachable` (if any). -/
structure PhrxResult where
  handler : PacketHandler
  txs : List Icmp6Tx
  notified : Option Nat
deriving Repr, DecidableEq

/-- `ip6.ps.IP6_HEADER_LEN` (wire constant). -/
def IP6_HEADER_LEN : Nat := 40

/-- `udp.ps.UDP_HEADER_LEN` (wire constant). -/
def UDP_HEADER_LEN : Nat := 8

/-- `ip6.ps.IP6_NEXT_HEADER_UDP` (wire constant: the IANA protocol number
of UDP). -/
def IP6_NEXT_HEADER_UDP : Nat := 17

/-- Big-endian byte-string to integer (what `Ip6Address(bytes)` and
`struct.unpack("!H", ...)` compute on the extracted slices). -/
def bytesToNat (bs : List Nat) : Nat := bs.foldl (fun a b => a * 256 + b) 0

/-- The 4-tuple `UdpMetadata(...)` built by the Unreachable branch from
the embedded datagram `frame`: local IP = bytes 8..24, remote IP =
bytes 24..40, and with `udp_offset = IP6_HEADER_LEN`, local port =
bytes 40..42, remote port = bytes 42..44 (both big-endian). -/
structure UdpMetadata where
  local_ip_address : Nat
  remote_ip_address : Nat
  local_port : Nat
  remote_port : Nat
deriving Repr, DecidableEq

/-- Field extraction for `UdpMetadata` from the embedded datagram. -/
def udpMetadataOfFrame (frame : List Nat) : UdpMetadata :=
  { local_ip_address := bytesToNat ((frame.drop 8).take 16)
    remote_ip_address := bytesToNat ((frame.drop 24).take 16)
    local_port := bytesToNat ((frame.drop IP6_HEADER_LEN).take 2)
    remote_port := bytesToNat ((frame.drop (IP6_HEADER_LEN + 2)).take 2) }

/-- The `for socket_pattern in packet.socket_patterns` loop: look each
pattern up in `stack.sockets` and stop at the first hit. -/
def findSocket (sockets : Nat → Option Nat) : List Nat → Option Nat
  | [] => none
  | p :: ps =>
    match sockets p with
    | some s => some s
    | none => findSocket sockets ps

/-- `_phrx_icmp6` after a successful parse, dispatched on the ICMPv6 type.

The socket registry `stack.sockets` and the pattern list
`UdpMetadata.socket_patterns` (modelled from the spec: the patterns
derived from the 4-tuple, ordered from most to least specific; both live
outside the provided sources) are passed in as functions. -/
def phrxIcmp6 (socket_patterns : UdpMetadata → List Nat)
    (sockets : Nat → Option Nat) (now : Int)
    (self : PacketHandler) (packet_rx : Icmp6Rx) : PhrxResult :=
  match packet_rx with
  | .neighborSolicitation ip6_src ns_target_address nd_opt_slla =>
    -- Check if request is for one of stack's IPv6 unicast addresses
    if ns_target_address ∉ self.ip6_unicast then
      { handler := self, txs := [], notified := none }
    else
      -- Update ICMPv6 ND cache
      let cache :=
        match nd_opt_slla with
        | some slla =>
          if ¬(isUnspecified ip6_src = true ∨ isMulticast ip6_src = true) then
            addEntry now self.icmp6_nd_cache ip6_src slla
          else self.icmp6_nd_cache
        | none => self.icmp6_nd_cache
      -- Determine if request is part of DAD request by examining its source address
      let ip6_nd_dad := isUnspecified ip6_src
      { handler := { self with icmp6_nd_cache := cache }
        txs := [{ ip6_src := ns_target_address
                  ip6_dst := if ip6_nd_dad then ip6AllNodes else ip6_src
                  ip6_hop := 255
                  body := .neighborAdvertisement (!ip6_nd_dad) ip6_nd_dad
                    ns_target_address [.tlla self.mac_unicast] }]
        notified := none }
  | .neighborAdvertisement _ na_target_address nd_opt_tlla =>
    -- Run ND Duplicate Address Detection check
    if (match self.ip6_unicast_candidate with
        | some c => na_target_address == c
        | none => false) then
      { handler := { self with
          icmp6_nd_dad_tlla := nd_opt_tlla
          event_icmp6_nd_dad_released := true }
        txs := [], notified := none }
    else
      -- Update ICMPv6 ND cache
      match nd_opt_tlla with
      | some tlla =>
        { handler := { self with
            icmp6_nd_cache := addEntry now self.icmp6_nd_cache na_target_address tlla }
          txs := [], notified := none }
      | none => { handler := self, txs := [], notified := none }
  | .routerSolicitation _ =>
    { handler := self, txs := [], notified := none }
  | .routerAdvertisement ip6_src nd_opt_pi =>
    { handler := { self with
        icmp6_ra_prefixes := nd_opt_pi.map (fun pi => (pi, ip6_src))
        event_icmp6_ra_released := true }
      txs := [], notified := none }
  | .echoRequest ip6_src ip6_dst ec_id ec_seq ec_data =>
    { handler := self
      txs := [{ ip6_src := ip6_dst, ip6_dst := ip6_src, ip6_hop := 255
                body := .echoReply ec_id ec_seq ec_data }]
      notified := none }
  | .unreachable frame =>
    if frame.length ≥ IP6_HEADER_LEN + UDP_HEADER_LEN
        ∧ (frame.getD 0 0) >>> 4 = 6
        ∧ frame.getD 6 0 = IP6_NEXT_HEADER_UDP then
      { handler := self, txs := []
        notified := findSocket sockets (socket_patterns (udpMetadataOfFrame frame)) }
    else
      { handler := self, txs := [], notified := none }

/-- Whether an outbound packet is a Neighbor Solicitation whose target is `k`. -/
def isNsFor (k : Nat) (tx : Icmp6Tx) : Bool :=
  match tx.body with
  | .neighborSolicitation t _ => t == k
  | _ => false


/-- The per-entry postcondition of one maintenance sweep, for the entry
`e` bound to key `k` when the sweep starts: permanent entries are left
untouched; an entry past `maxAge` is evicted; an entry in the trailing
refresh window that has been hit keeps its binding with `hit_count`
reset to 0 (its `creation_time` unchanged) and one Neighbor Solicitation
is emitted for `k`; anything else is left untouched. -/
def sweepPost (now maxAge rt : Int) (hosts : List Ip6Host) (mac k : Nat)
    (e : CacheEntry) (r : NdCacheMap × List Icmp6Tx) : Prop :=
  if e.permanent = true then
    cFind r.1 k = some e ∧ r.2.filter (isNsFor k) = []
  else if now - e.creation_time > maxAge then
    cFind r.1 k = none ∧ r.2.filter (isNsFor k) = []
  else if now - e.creation_time > maxAge - rt ∧ e.hit_count ≠ 0 then
    cFind r.1 k = some { e with hit_count := 0 } ∧
      r.2.filter (isNsFor k) = [sendIcmp6NeighborSolicitation hosts mac k]
  else
    cFind r.1 k = some e ∧ r.2.filter (isNsFor k) = []

/-- The spec's description of the solicitation source selection, for
comparison with the fold in `sendIcmp6NeighborSolicitation`: the address
of the LAST HostAddress (in registry iteration order) whose network
contains the target, or the unspecified address when no host network
contains it. -/
def lastMatchingHostAddress (hosts : List Ip6Host) (target : Nat) : Nat :=
  match hosts.reverse.find? (fun h => h.network.containsAddr target) with
  | some h => h.address
  | none => ip6Unspecified

/-- A public cache operation, timestamped where the source reads the
clock: an `add_entry` (at time `t`, for some key and MAC), a
`find_entry`, or one maintenance sweep (at time `t`). -/
inductive StackOp where
  | addOp (t : Int) (k mac : Nat)
  | findOp (k : Nat)
  | sweepOp (t : Int)
deriving Repr, DecidableEq

/-- The cache after one public operation. -/
def runOp (maxAge rt : Int) (hosts : List Ip6Host) (mac : Nat)
    (c : NdCacheMap) : StackOp → NdCacheMap
  | .addOp t k m => addEntry t c k m
  | .findOp k => (findEntry hosts mac c k).cache
  | .sweepOp t => (maintainCache t maxAge rt hosts mac c).1

/-- The cache after a sequence of public operations. -/
def runOps (maxAge rt : Int) (hosts : List Ip6Host) (mac : Nat)
    (c : NdCacheMap) (ops : List StackOp) : NdCacheMap :=
  ops.foldl (runOp maxAge rt hosts mac) c

/-- Side conditions on an intervening operation for the add/lookup round
trip at key `K`: it is not another `add` for `K`, and a sweep runs no
later than `bound` (the add time plus `MAX_AGE`, i.e. before hard expiry). -/
def opOk (K : Nat) (bound : Int) : StackOp → Bool
  | .addOp _ k _ => k != K
  | .findOp _ => true
  | .sweepOp t => decide (t ≤ bound)

/-- The binding of key `K` still carries MAC `M`, creation time `ct` and
a cleared permanent flag, in a cache with pairwise distinct keys. -/
def entryIntact (K M : Nat) (ct : Int) (c : NdCacheMap) : Prop :=
  (cKeys c).Nodup ∧ ∃ e, cFind c K = some e ∧ e.mac_address = M ∧
    e.creation_time = ct ∧ e.permanent = false

/-- The cache states reachable through the public operations of the
stack: the empty initial cache, then `add_entry`, `find_entry`, the
once-per-second maintenance sweep, and inbound ICMPv6 handling (whose
cache writes all go through `add_entry`; the module has no
`add_permanent` or `delete` operation). -/
inductive ReachableCache (maxAge rt : Int) (hosts : List Ip6Host) (mac : Nat) :
    NdCacheMap → Prop where
  | empty : ReachableCache maxAge rt hosts mac []
  | addStep (now : Int) (k m : Nat) {c : NdCacheMap} :
      ReachableCache maxAge rt hosts mac c →
      ReachableCache maxAge rt hosts mac (addEntry now c k m)
  | findStep (k : Nat) {c : NdCacheMap} :
      ReachableCache maxAge rt hosts mac c →
      ReachableCache maxAge rt hosts mac ((findEntry hosts mac c k).cache)
  | sweepStep (now : Int) {c : NdCacheMap} :
      ReachableCache maxAge rt hosts mac c →
      ReachableCache maxAge rt hosts mac ((maintainCache now maxAge rt hosts mac c).1)
  | phrxStep (sp : UdpMetadata → List Nat) (so : Nat → Option Nat) (now : Int)
      (self : PacketHandler) (pkt : Icmp6Rx) :
      ReachableCache maxAge rt hosts mac self.icmp6_nd_cache →
      ReachableCache maxAge rt hosts mac
        ((phrxIcmp6 sp so now self pkt).handler.icmp6_nd_cache)

/-! ### Association-list lemmas -/

theorem cFind_eq_none_of_not_mem {c : NdCacheMap} {k : Nat}
    (h : k ∉ cKeys c) : cFind c k = none := by
  induction c with
  | nil => rfl
  | cons p t ih =>
    obtain ⟨a, b⟩ := p
    simp only [cKeys, List.map_cons, List.mem_cons, not_or] at h
    have ha : a ≠ k := fun he => h.1 he.symm
    simpa [cFind, ha] using ih h.2

theorem mem_cKeys_of_cFind {c : NdCacheMap} {k : Nat} {e : CacheEntry}
    (h : cFind c k = some e) : k ∈ cKeys c := by
  by_contra hmem
  rw [cFind_eq_none_of_not_mem hmem] at h
  exact Option.noConfusion h

theorem cFind_mem {c : NdCacheMap} {k : Nat} {e : CacheEntry}
    (h : cFind c k = some e) : (k, e) ∈ c := by
  induction c with
  | nil => exact Option.noConfusion h
  | cons p t ih =>
    obtain ⟨a, b⟩ := p
    by_cases ha : a = k
    · subst ha
      have hb : b = e := by simpa [cFind] using h
      subst hb
      exact List.mem_cons_self _ _
    · simp only [cFind, if_neg ha] at h
      exact List.mem_cons_of_mem _ (ih h)

theorem cFind_cSet_self (c : NdCacheMap) (k : Nat) (e : CacheEntry) :
    cFind (cSet c k e) k = some e := by
  induction c with
  | nil => simp [cSet, cFind]
  | cons p t ih =>
    obtain ⟨a, b⟩ := p
    by_cases ha : a = k
    · simp [cSet, cFind, ha]
    · simp [cSet, cFind, ha, ih]

theorem cFind_cSet_ne (c : NdCacheMap) {k k' : Nat} (e : CacheEntry)
    (h : k' ≠ k) : cFind (cSet c k e) k' = cFind c k' := by
  have h' : k ≠ k' := fun he => h he.symm
  induction c with
  | nil => simp [cSet, cFind, h']
  | cons p t ih =>
    obtain ⟨a, b⟩ := p
    by_cases ha : a = k
    · subst ha
      simp [cSet, cFind, h']
    · simp only [cSet, if_neg ha, cFind]
      by_cases ha' : a = k'
      · simp [ha']
      · simp [ha', ih]

theorem cFind_cPop_ne (c : NdCacheMap) {k k' : Nat} (h : k' ≠ k) :
    cFind (cPop c k) k' = cFind c k' := by
  have h' : k ≠ k' := fun he => h he.symm
  induction c with
  | nil => rfl
  | cons p t ih =>
    obtain ⟨a, b⟩ := p
    by_cases ha : a = k
    · subst ha
      simp [cPop, cFind, h']
    · simp only [cPop, if_neg ha, cFind]
      by_cases ha' : a = k'
      · simp [ha']
      · simp [ha', ih]

theorem cFind_cPop_self {c : NdCacheMap} {k : Nat}
    (hnod : (cKeys c).Nodup) : cFind (cPop c k) k = none := by
  induction c with
  | nil => rfl
  | cons p t ih =>
    obtain ⟨a, b⟩ := p
    simp only [cKeys, List.map_cons, List.nodup_cons] at hnod
    by_cases ha : a = k
    · subst ha
      simp only [cPop, if_pos rfl]
      exact cFind_eq_none_of_not_mem hnod.1
    · simp only [cPop, if_neg ha, cFind, if_neg ha]
      exact ih hnod.2

theorem mem_cKeys_cSet {c : NdCacheMap} {k k' : Nat} {e : CacheEntry}
    (h : k' ∈ cKeys (cSet c k e)) : k' ∈ cKeys c ∨ k' = k := by
  induction c with
  | nil => simp_all [cSet, cKeys]
  | cons p t ih =>
    obtain ⟨a, b⟩ := p
    by_cases ha : a = k
    · have hs : cSet ((a, b) :: t) k e = (k, e) :: t := by simp [cSet, ha]
      rw [hs] at h
      simp only [cKeys, List.map_cons, List.mem_cons] at h ⊢
      rcases h with h | h
      · exact Or.inr h
      · exact Or.inl (Or.inr h)
    · have hs : cSet ((a, b) :: t) k e = (a, b) :: cSet t k e := by
        simp [cSet, ha]
      rw [hs] at h
      simp only [cKeys, List.map_cons, List.mem_cons] at h ⊢
      rcases h with h | h
      · exact Or.inl (Or.inl h)
      · rcases ih h with h' | h'
        · exact Or.inl (Or.inr h')
        · exact Or.inr h'

theorem cKeys_cSet_nodup {c : NdCacheMap} (k : Nat) (e : CacheEntry)
    (hnod : (cKeys c).Nodup) : (cKeys (cSet c k e)).Nodup := by
  induction c with
  | nil => simp [cSet, cKeys]
  | cons p t ih =>
    obtain ⟨a, b⟩ := p
    simp only [cKeys, List.map_cons, List.nodup_cons] at hnod
    by_cases ha : a = k
    · have hs : cSet ((a, b) :: t) k e = (k, e) :: t := by simp [cSet, ha]
      rw [hs]
      simp only [cKeys, List.map_cons, List.nodup_cons]
      exact ⟨ha ▸ hnod.1, hnod.2⟩
    · have hs : cSet ((a, b) :: t) k e = (a, b) :: cSet t k e := by
        simp [cSet, ha]
      rw [hs]
      simp only [cKeys, List.map_cons, List.nodup_cons]
      refine ⟨fun hmem => ?_, ih hnod.2⟩
      rcases mem_cKeys_cSet hmem with h' | h'
      · exact hnod.1 h'
      · exact ha h'

theorem cKeys_cPop_sublist (c : NdCacheMap) (k : Nat) :
    (cKeys (cPop c k)).Sublist (cKeys c) := by
  induction c with
  | nil => simp [cPop, cKeys]
  | cons p t ih =>
    obtain ⟨a, b⟩ := p
    by_cases ha : a = k
    · simp only [cPop, if_pos ha, cKeys, List.map_cons]
      exact List.sublist_cons_self _ _
    · simp only [cPop, if_neg ha, cKeys, List.map_cons]
      exact ih.cons₂ _

theorem cKeys_cPop_nodup {c : NdCacheMap} (k : Nat)
    (hnod : (cKeys c).Nodup) : (cKeys (cPop c k)).Nodup :=
  (cKeys_cPop_sublist c k).nodup hnod

theorem mem_cSet {c : NdCacheMap} {k : Nat} {e : CacheEntry}
    {p : Nat × CacheEntry} (h : p ∈ cSet c k e) : p ∈ c ∨ p = (k, e) := by
  induction c with
  | nil => simp_all [cSet]
  | cons q t ih =>
    obtain ⟨a, b⟩ := q
    by_cases ha : a = k
    · simp only [cSet, if_pos ha, List.mem_cons] at h
      rcases h with h | h
      · exact Or.inr h
      · exact Or.inl (List.mem_cons_of_mem _ h)
    · simp only [cSet, if_neg ha, List.mem_cons] at h
      rcases h with h | h
      · exact Or.inl (h ▸ List.mem_cons_self _ _)
      · rcases ih h with h' | h'
        · exact Or.inl (List.mem_cons_of_mem _ h')
        · exact Or.inr h'

theorem mem_cPop {c : NdCacheMap} {k : Nat} {p : Nat × CacheEntry}
    (h : p ∈ cPop c k) : p ∈ c := by
  induction c with
  | nil => simp_all [cPop]
  | cons q t ih =>
    obtain ⟨a, b⟩ := q
    by_cases ha : a = k
    · simp only [cPop, if_pos ha] at h
      exact List.mem_cons_of_mem _ h
    · simp only [cPop, if_neg ha, List.mem_cons] at h
      rcases h with h | h
      · exact h ▸ List.mem_cons_self _ _
      · exact List.mem_cons_of_mem _ (ih h)


/-! ## Lemmas about the maintenance sweep -/

theorem isNsFor_sendNs_self (hosts : List Ip6Host) (mac k : Nat) :
    isNsFor k (sendIcmp6NeighborSolicitation hosts mac k) = true := by
  simp [isNsFor, sendIcmp6NeighborSolicitation]

theorem isNsFor_sendNs_ne (hosts : List Ip6Host) (mac : Nat) {k k' : Nat}
    (h : k' ≠ k) :
    isNsFor k (sendIcmp6NeighborSolicitation hosts mac k') = false := by
  simp [isNsFor, sendIcmp6NeighborSolicitation, h]

/-- Evaluation of a sweep iteration when the key is absent (the skip
case of the `for` body). -/
theorem maintainStep_eq_none (now maxAge rt : Int) (hosts : List Ip6Host)
    (mac : Nat) (acc : NdCacheMap × List Icmp6Tx) (k' : Nat)
    (hf : cFind acc.1 k' = none) :
    maintainStep now maxAge rt hosts mac acc k' = acc := by
  unfold maintainStep
  rw [hf]

/-- Evaluation of a sweep iteration when the key is bound to `e`: the
`if` chain of the `for` body. -/
theorem maintainStep_eq_some (now maxAge rt : Int) (hosts : List Ip6Host)
    (mac : Nat) (acc : NdCacheMap × List Icmp6Tx) (k' : Nat) {e : CacheEntry}
    (hf : cFind acc.1 k' = some e) :
    maintainStep now maxAge rt hosts mac acc k' =
      (if e.permanent = true then acc
       else if now - e.creation_time > maxAge then (cPop acc.1 k', acc.2)
       else if now - e.creation_time > maxAge - rt ∧ e.hit_count ≠ 0 then
         (cSet acc.1 k' { e with hit_count := 0 },
          acc.2 ++ [sendIcmp6NeighborSolicitation hosts mac k'])
       else acc) := by
  unfold maintainStep
  rw [hf]

/-- A sweep iteration for key `k'` does not change the binding of a
different key `k`, nor the solicitations targeted at `k`. -/
theorem maintainStep_preserves (now maxAge rt : Int) (hosts : List Ip6Host)
    (mac : Nat) {k k' : Nat} (h : k' ≠ k) (acc : NdCacheMap × List Icmp6Tx) :
    cFind (maintainStep now maxAge rt hosts mac acc k').1 k = cFind acc.1 k ∧
    (maintainStep now maxAge rt hosts mac acc k').2.filter (isNsFor k)
      = acc.2.filter (isNsFor k) := by
  have hk : k ≠ k' := fun he => h he.symm
  cases hf : cFind acc.1 k' with
  | none => rw [maintainStep_eq_none now maxAge rt hosts mac acc k' hf]
            exact ⟨rfl, rfl⟩
  | some e =>
    rw [maintainStep_eq_some now maxAge rt hosts mac acc k' hf]
    by_cases hperm : e.permanent = true
    · rw [if_pos hperm]
      exact ⟨rfl, rfl⟩
    · rw [if_neg hperm]
      by_cases hexp : now - e.creation_time > maxAge
      · rw [if_pos hexp]
        exact ⟨cFind_cPop_ne acc.1 hk, rfl⟩
      · rw [if_neg hexp]
        by_cases href : now - e.creation_time > maxAge - rt ∧ e.hit_count ≠ 0
        · rw [if_pos href]
          refine ⟨cFind_cSet_ne acc.1 _ hk, ?_⟩
          rw [List.filter_append]
          simp [isNsFor_sendNs_ne hosts mac h]
        · rw [if_neg href]
          exact ⟨rfl, rfl⟩

/-- A sweep iteration keeps the cache's keys pairwise distinct. -/
theorem maintainStep_nodup (now maxAge rt : Int) (hosts : List Ip6Host)
    (mac : Nat) (acc : NdCacheMap × List Icmp6Tx) (k' : Nat)
    (h : (cKeys acc.1).Nodup) :
    (cKeys (maintainStep now maxAge rt hosts mac acc k').1).Nodup := by
  unfold maintainStep
  cases hf : cFind acc.1 k' with
  | none => exact h
  | some e =>
    by_cases hperm : e.permanent = true
    · simp only [hperm, if_true]; exact h
    · simp only [hperm, if_false]
      by_cases hexp : now - e.creation_time > maxAge
      · simp only [if_pos hexp]
        exact cKeys_cPop_nodup _ h
      · simp only [if_neg hexp]
        by_cases href : now - e.creation_time > maxAge - rt ∧ e.hit_count ≠ 0
        · simp only [if_pos href]
          exact cKeys_cSet_nodup _ _ h
        · simp only [if_neg href]; exact h

/-- Folding sweep iterations over keys that do not include `k` changes
neither the binding of `k` nor the solicitations targeted at `k`. -/
theorem maintain_fold_skip (now maxAge rt : Int) (hosts : List Ip6Host)
    (mac : Nat) (ks : List Nat) {k : Nat} (hk : k ∉ ks)
    (acc : NdCacheMap × List Icmp6Tx) :
    cFind (ks.foldl (maintainStep now maxAge rt hosts mac) acc).1 k
      = cFind acc.1 k ∧
    (ks.foldl (maintainStep now maxAge rt hosts mac) acc).2.filter (isNsFor k)
      = acc.2.filter (isNsFor k) := by
  induction ks generalizing acc with
  | nil => exact ⟨rfl, rfl⟩
  | cons k' t ih =>
    simp only [List.mem_cons, not_or] at hk
    rw [List.foldl_cons]
    have hstep := maintainStep_preserves now maxAge rt hosts mac
      (fun he => hk.1 he.symm) acc
    have hrest := ih hk.2 (maintainStep now maxAge rt hosts mac acc k')
    exact ⟨hrest.1.trans hstep.1, hrest.2.trans hstep.2⟩

/-- Folding sweep iterations over a duplicate-free key list containing
`k` realises the per-entry postcondition for `k`. -/
theorem maintain_fold_spec (now maxAge rt : Int) (hosts : List Ip6Host)
    (mac : Nat) (ks : List Nat) (hks : ks.Nodup) {k : Nat} (hk : k ∈ ks)
    (acc : NdCacheMap × List Icmp6Tx) (hnod : (cKeys acc.1).Nodup)
    {e : CacheEntry} (hfind : cFind acc.1 k = some e)
    (hacc : acc.2.filter (isNsFor k) = []) :
    sweepPost now maxAge rt hosts mac k e
      (ks.foldl (maintainStep now maxAge rt hosts mac) acc) := by
  induction ks generalizing acc with
  | nil => cases hk
  | cons k' t ih =>
    rw [List.nodup_cons] at hks
    rw [List.foldl_cons]
    by_cases hkk : k' = k
    · subst hkk
      rw [maintainStep_eq_some now maxAge rt hosts mac acc k' hfind]
      unfold sweepPost
      by_cases hperm : e.permanent = true
      · rw [if_pos hperm, if_pos hperm]
        have hrest := maintain_fold_skip now maxAge rt hosts mac t hks.1 acc
        exact ⟨hrest.1.trans hfind, hrest.2.trans hacc⟩
      · rw [if_neg hperm, if_neg hperm]
        by_cases hexp : now - e.creation_time > maxAge
        · rw [if_pos hexp, if_pos hexp]
          have hrest := maintain_fold_skip now maxAge rt hosts mac t hks.1
            (cPop acc.1 k', acc.2)
          exact ⟨hrest.1.trans (cFind_cPop_self hnod), hrest.2.trans hacc⟩
        · rw [if_neg hexp, if_neg hexp]
          by_cases href : now - e.creation_time > maxAge - rt ∧ e.hit_count ≠ 0
          · rw [if_pos href, if_pos href]
            have hrest := maintain_fold_skip now maxAge rt hosts mac t hks.1
              (cSet acc.1 k' { e with hit_count := 0 },
               acc.2 ++ [sendIcmp6NeighborSolicitation hosts mac k'])
            refine ⟨hrest.1.trans (cFind_cSet_self _ _ _), hrest.2.trans ?_⟩
            rw [List.filter_append, hacc]
            simp [isNsFor_sendNs_self]
          · rw [if_neg href, if_neg href]
            have hrest := maintain_fold_skip now maxAge rt hosts mac t hks.1 acc
            exact ⟨hrest.1.trans hfind, hrest.2.trans hacc⟩
    · have hk' : k ∈ t := by
        rcases List.mem_cons.mp hk with h | h
        · exact absurd h.symm hkk
        · exact h
      have hstep := maintainStep_preserves now maxAge rt hosts mac hkk acc
      exact ih hks.2 hk' _
        (maintainStep_nodup now maxAge rt hosts mac acc k' hnod)
        (hstep.1.trans hfind) (hstep.2.trans hacc)

/-- Every packet a sweep iteration appends is a solicitation built by
`sendIcmp6NeighborSolicitation`. -/
theorem maintainStep_txs (now maxAge rt : Int) (hosts : List Ip6Host)
    (mac : Nat) (acc : NdCacheMap × List Icmp6Tx) (k' : Nat) {tx : Icmp6Tx}
    (h : tx ∈ (maintainStep now maxAge rt hosts mac acc k').2) :
    tx ∈ acc.2 ∨ tx = sendIcmp6NeighborSolicitation hosts mac k' := by
  cases hf : cFind acc.1 k' with
  | none => rw [maintainStep_eq_none now maxAge rt hosts mac acc k' hf] at h
            exact Or.inl h
  | some e =>
    rw [maintainStep_eq_some now maxAge rt hosts mac acc k' hf] at h
    by_cases hperm : e.permanent = true
    · rw [if_pos hperm] at h; exact Or.inl h
    · rw [if_neg hperm] at h
      by_cases hexp : now - e.creation_time > maxAge
      · rw [if_pos hexp] at h; exact Or.inl h
      · rw [if_neg hexp] at h
        by_cases href : now - e.creation_time > maxAge - rt ∧ e.hit_count ≠ 0
        · rw [if_pos href] at h
          rcases List.mem_append.mp h with h | h
          · exact Or.inl h
          · exact Or.inr (List.mem_singleton.mp h)
        · rw [if_neg href] at h; exact Or.inl h

/-- Every packet emitted during a whole sweep is a solicitation built by
`sendIcmp6NeighborSolicitation`. -/
theorem maintain_fold_txs (now maxAge rt : Int) (hosts : List Ip6Host)
    (mac : Nat) (ks : List Nat) (acc : NdCacheMap × List Icmp6Tx) {tx : Icmp6Tx}
    (h : tx ∈ (ks.foldl (maintainStep now maxAge rt hosts mac) acc).2) :
    tx ∈ acc.2 ∨ ∃ k, tx = sendIcmp6NeighborSolicitation hosts mac k := by
  induction ks generalizing acc with
  | nil => exact Or.inl h
  | cons k' t ih =>
    rw [List.foldl_cons] at h
    rcases ih _ h with h' | h'
    · rcases maintainStep_txs now maxAge rt hosts mac acc k' h' with h'' | h''
      · exact Or.inl h''
      · exact Or.inr ⟨k', h''⟩
    · exact Or.inr h'

/-- A sweep iteration preserves "no entry is permanent". -/
theorem maintainStep_no_permanent (now maxAge rt : Int) (hosts : List Ip6Host)
    (mac : Nat) (acc : NdCacheMap × List Icmp6Tx) (k' : Nat)
    (hinv : ∀ p ∈ acc.1, (p : Nat × CacheEntry).2.permanent = false) :
    ∀ p ∈ (maintainStep now maxAge rt hosts mac acc k').1,
      (p : Nat × CacheEntry).2.permanent = false := by
  intro p hp
  cases hf : cFind acc.1 k' with
  | none => rw [maintainStep_eq_none now maxAge rt hosts mac acc k' hf] at hp
            exact hinv p hp
  | some e =>
    rw [maintainStep_eq_some now maxAge rt hosts mac acc k' hf] at hp
    by_cases hperm : e.permanent = true
    · rw [if_pos hperm] at hp; exact hinv p hp
    · rw [if_neg hperm] at hp
      by_cases hexp : now - e.creation_time > maxAge
      · rw [if_pos hexp] at hp
        exact hinv p (mem_cPop hp)
      · rw [if_neg hexp] at hp
        by_cases href : now - e.creation_time > maxAge - rt ∧ e.hit_count ≠ 0
        · rw [if_pos href] at hp
          rcases mem_cSet hp with h' | h'
          · exact hinv p h'
          · rw [h']
            exact hinv (k', e) (cFind_mem hf)
        · rw [if_neg href] at hp; exact hinv p hp

/-- A whole sweep keeps the cache's keys pairwise distinct. -/
theorem maintain_fold_nodup (now maxAge rt : Int) (hosts : List Ip6Host)
    (mac : Nat) (ks : List Nat) (acc : NdCacheMap × List Icmp6Tx)
    (h : (cKeys acc.1).Nodup) :
    (cKeys ((ks.foldl (maintainStep now maxAge rt hosts mac) acc)).1).Nodup := by
  induction ks generalizing acc with
  | nil => exact h
  | cons k' t ih =>
    rw [List.foldl_cons]
    exact ih _ (maintainStep_nodup now maxAge rt hosts mac acc k' h)

/-- The source-selection fold keeps the address of the last matching
host: it equals the first match over the reversed host list. -/
theorem foldl_src_eq (target : Nat) (hosts : List Ip6Host) (init : Nat) :
    hosts.foldl
      (fun src h => if h.network.containsAddr target then h.address else src) init
      = (match hosts.reverse.find? (fun h => h.network.containsAddr target) with
         | some h => h.address
         | none => init) := by
  induction hosts generalizing init with
  | nil => rfl
  | cons h t ih =>
    rw [List.foldl_cons, List.reverse_cons, List.find?_append, ih]
    cases hf : t.reverse.find? (fun x => x.network.containsAddr target) with
    | some x => rfl
    | none =>
      cases hc : h.network.containsAddr target with
      | true => simp [hc]
      | false => simp [hc]

/-- The socket-pattern loop returns the socket registered under the
first pattern that has a registered socket. -/
theorem findSocket_eq_find? (so : Nat → Option Nat) (ps : List Nat) :
    findSocket so ps = (ps.find? (fun p => (so p).isSome)).bind so := by
  induction ps with
  | nil => rfl
  | cons p t ih =>
    cases hso : so p with
    | some s => simp [findSocket, hso]
    | none => simp [findSocket, hso, ih]

/-- Entries written by `add_entry` are never permanent. -/
theorem addEntry_no_permanent (now : Int) (k m : Nat) {c : NdCacheMap}
    (hinv : ∀ p ∈ c, (p : Nat × CacheEntry).2.permanent = false) :
    ∀ p ∈ addEntry now c k m, (p : Nat × CacheEntry).2.permanent = false := by
  intro p hp
  have hp' : p ∈ cSet c k (mkCacheEntry m now) := hp
  rcases mem_cSet hp' with h' | h'
  · exact hinv p h'
  · rw [h']
    rfl

/-- A whole sweep preserves "no entry is permanent". -/
theorem maintain_fold_no_permanent (now maxAge rt : Int) (hosts : List Ip6Host)
    (mac : Nat) (ks : List Nat) (acc : NdCacheMap × List Icmp6Tx)
    (hinv : ∀ p ∈ acc.1, (p : Nat × CacheEntry).2.permanent = false) :
    ∀ p ∈ (ks.foldl (maintainStep now maxAge rt hosts mac) acc).1,
      (p : Nat × CacheEntry).2.permanent = false := by
  induction ks generalizing acc with
  | nil => exact hinv
  | cons k' t ih =>
    rw [List.foldl_cons]
    exact ih _ (maintainStep_no_permanent now maxAge rt hosts mac acc k' hinv)

/-- Inbound ICMPv6 handling preserves "no entry is permanent": its only
cache writes go through `add_entry`. -/
theorem phrx_no_permanent (sp : UdpMetadata → List Nat)
    (so : Nat → Option Nat) (now : Int) (self : PacketHandler)
    (pkt : Icmp6Rx)
    (hinv : ∀ p ∈ self.icmp6_nd_cache, (p : Nat × CacheEntry).2.permanent = false) :
    ∀ p ∈ (phrxIcmp6 sp so now self pkt).handler.icmp6_nd_cache,
      (p : Nat × CacheEntry).2.permanent = false := by
  intro p hp
  cases pkt with
  | neighborSolicitation ip6_src ns_target slla =>
    simp only [phrxIcmp6] at hp
    by_cases hmem : ns_target ∉ self.ip6_unicast
    · rw [if_pos hmem] at hp
      exact hinv p hp
    · rw [if_neg hmem] at hp
      cases slla with
      | none => exact hinv p hp
      | some m =>
        by_cases hsrc : ¬(isUnspecified ip6_src = true ∨ isMulticast ip6_src = true)
        · have hp' : p ∈ addEntry now self.icmp6_nd_cache ip6_src m := by
            simpa [hsrc] using hp
          exact addEntry_no_permanent now ip6_src m hinv p hp'
        · have hp' : p ∈ self.icmp6_nd_cache := by
            simpa [hsrc] using hp
          exact hinv p hp'
  | neighborAdvertisement ip6_src na_target tlla =>
    simp only [phrxIcmp6] at hp
    by_cases hcand : (match self.ip6_unicast_candidate with
        | some c => na_target == c
        | none => false) = true
    · rw [if_pos hcand] at hp
      exact hinv p hp
    · rw [if_neg hcand] at hp
      cases tlla with
      | none => exact hinv p hp
      | some m =>
        have hp' : p ∈ addEntry now self.icmp6_nd_cache na_target m := hp
        exact addEntry_no_permanent now na_target m hinv p hp'
  | routerSolicitation ip6_src => exact hinv p hp
  | routerAdvertisement ip6_src pis => exact hinv p hp
  | echoRequest a b d f g => exact hinv p hp
  | unreachable frame =>
    simp only [phrxIcmp6] at hp
    by_cases hg : frame.length ≥ IP6_HEADER_LEN + UDP_HEADER_LEN
        ∧ (frame.getD 0 0) >>> 4 = 6 ∧ frame.getD 6 0 = IP6_NEXT_HEADER_UDP
    · rw [if_pos hg] at hp
      exact hinv p hp
    · rw [if_neg hg] at hp
      exact hinv p hp

/-- Every packet `find_entry` emits has hop limit 255. -/
theorem findEntry_hop (hosts : List Ip6Host) (mac : Nat) (c : NdCacheMap)
    (k : Nat) {tx : Icmp6Tx} (h : tx ∈ (findEntry hosts mac c k).txs) :
    tx.ip6_hop = 255 := by
  unfold findEntry at h
  cases hf : cFind c k with
  | some e =>
    rw [hf] at h
    simp at h
  | none =>
    rw [hf] at h
    have h' : tx ∈ [sendIcmp6NeighborSolicitation hosts mac k] := h
    rw [List.mem_singleton.mp h']
    rfl

/-- Every packet the maintenance sweep emits has hop limit 255. -/
theorem maintainCache_hop (now maxAge rt : Int) (hosts : List Ip6Host)
    (mac : Nat) (c : NdCacheMap) {tx : Icmp6Tx}
    (h : tx ∈ (maintainCache now maxAge rt hosts mac c).2) :
    tx.ip6_hop = 255 := by
  unfold maintainCache at h
  rcases maintain_fold_txs now maxAge rt hosts mac (cKeys c) (c, []) h with h' | ⟨k, h'⟩
  · cases h'
  · rw [h']
    rfl

/-- Every packet `_phrx_icmp6` emits has hop limit 255. -/
theorem phrx_hop (sp : UdpMetadata → List Nat) (so : Nat → Option Nat)
    (now : Int) (self : PacketHandler) (pkt : Icmp6Rx) {tx : Icmp6Tx}
    (h : tx ∈ (phrxIcmp6 sp so now self pkt).txs) :
    tx.ip6_hop = 255 := by
  cases pkt with
  | neighborSolicitation ip6_src ns_target slla =>
    simp only [phrxIcmp6] at h
    by_cases hmem : ns_target ∉ self.ip6_unicast
    · rw [if_pos hmem] at h
      cases h
    · rw [if_neg hmem] at h
      simp only [List.mem_singleton] at h
      rw [h]
  | neighborAdvertisement ip6_src na_target tlla =>
    simp only [phrxIcmp6] at h
    by_cases hcand : (match self.ip6_unicast_candidate with
        | some c => na_target == c
        | none => false) = true
    · rw [if_pos hcand] at h
      cases h
    · rw [if_neg hcand] at h
      cases tlla with
      | none => cases h
      | some m => cases h
  | routerSolicitation ip6_src => cases h
  | routerAdvertisement ip6_src pis => cases h
  | echoRequest a b d f g =>
    simp only [phrxIcmp6, List.mem_singleton] at h
    rw [h]
  | unreachable frame =>
    simp only [phrxIcmp6] at h
    by_cases hg : frame.length ≥ IP6_HEADER_LEN + UDP_HEADER_LEN
        ∧ (frame.getD 0 0) >>> 4 = 6 ∧ frame.getD 6 0 = IP6_NEXT_HEADER_UDP
    · rw [if_pos hg] at h
      cases h
    · rw [if_neg hg] at h
      cases h

/-! ## The claims -/

/-- C1: Maintenance sweep postcondition. For every entry `(k, e)` present
when the sweep runs over a cache with pairwise-distinct keys: if
`e.permanent` the sweep neither evicts nor refreshes it; otherwise if
`now - e.creation_time > nd_cache_entry_max_age` the entry is removed;
otherwise if `now - e.creation_time >
nd_cache_entry_max_age - nd_cache_entry_refresh_time` and
`e.hit_count > 0`, the sweep keeps the entry with `hit_count` reset to 0
(its `creation_time` unchanged) and emits one Neighbor Solicitation for
`k`; otherwise the entry is left untouched. -/
theorem maintain_cache_per_entry_spec (now maxAge rt : Int)
    (hosts : List Ip6Host) (mac : Nat) (c : NdCacheMap)
    (hnod : (cKeys c).Nodup) (k : Nat) (e : CacheEntry)
    (hfind : cFind c k = some e) :
    sweepPost now maxAge rt hosts mac k e
      (maintainCache now maxAge rt hosts mac c) := by
  unfold maintainCache
  exact maintain_fold_spec now maxAge rt hosts mac (cKeys c) hnod
    (mem_cKeys_of_cFind hfind) (c, []) hnod hfind rfl

/-- Witness for C1: a concrete entry in the refresh window. -/
theorem maintain_cache_per_entry_spec_witness :
    ((cKeys [(5, (⟨77, false, 0, 2⟩ : CacheEntry))]).Nodup ∧
      cFind [(5, (⟨77, false, 0, 2⟩ : CacheEntry))] 5 = some ⟨77, false, 0, 2⟩) ∧
    sweepPost 56 60 5 [] 9 5 ⟨77, false, 0, 2⟩
      (maintainCache 56 60 5 [] 9 [(5, ⟨77, false, 0, 2⟩)]) :=
  ⟨⟨by decide, rfl⟩,
   maintain_cache_per_entry_spec 56 60 5 [] 9 _ (by decide) 5 _ rfl⟩

/-- C2: Lookup postcondition. If `k` is bound to `e`, `find_entry`
returns `e`'s MAC, rewrites the binding with `hit_count` incremented by
exactly one, and emits nothing; if `k` is absent it returns `None`,
leaves the cache unchanged, and emits exactly one Neighbor Solicitation
whose target is `k`. -/
theorem find_entry_spec (hosts : List Ip6Host) (mac : Nat) (c : NdCacheMap)
    (k : Nat) :
    (∀ e, cFind c k = some e →
      findEntry hosts mac c k =
        { result := some e.mac_address
          cache := cSet c k { e with hit_count := e.hit_count + 1 }
          txs := [] }) ∧
    (cFind c k = none →
      findEntry hosts mac c k =
        { result := none
          cache := c
          txs := [sendIcmp6NeighborSolicitation hosts mac k] } ∧
      (sendIcmp6NeighborSolicitation hosts mac k).body
        = .neighborSolicitation k [.slla mac]) := by
  constructor
  · intro e he
    unfold findEntry
    rw [he]
  · intro he
    refine ⟨?_, rfl⟩
    unfold findEntry
    rw [he]

/-- Witness for C2: a miss on the empty cache and a hit on a singleton
cache. -/
theorem find_entry_spec_witness :
    (findEntry [] 9 ([] : NdCacheMap) 5 =
      { result := none
        cache := []
        txs := [sendIcmp6NeighborSolicitation [] 9 5] }) ∧
    (findEntry [] 9 [(5, (⟨77, false, 0, 2⟩ : CacheEntry))] 5 =
      { result := some 77
        cache := [(5, ⟨77, false, 0, 3⟩)]
        txs := [] }) :=
  ⟨((find_entry_spec [] 9 [] 5).2 rfl).1,
   (find_entry_spec [] 9 [(5, ⟨77, false, 0, 2⟩)] 5).1 ⟨77, false, 0, 2⟩ rfl⟩

/-- C6: Solicitation shape and source selection. Every Neighbor
Solicitation built by the cache has destination the target's
solicited-node multicast address (`ff02::1:ff00:0/104` combined with the
low 24 bits of the target), hop limit 255, an SLLA option carrying the
stack's MAC, and source the address of the LAST HostAddress in registry
iteration order whose network contains the target, or `::` if none. -/
theorem solicitation_shape_spec (hosts : List Ip6Host) (mac target : Nat) :
    (sendIcmp6NeighborSolicitation hosts mac target).ip6_dst
      = (ip6SnmBase ||| target % 2 ^ 24) ∧
    (sendIcmp6NeighborSolicitation hosts mac target).ip6_hop = 255 ∧
    (sendIcmp6NeighborSolicitation hosts mac target).body
      = .neighborSolicitation target [.slla mac] ∧
    (sendIcmp6NeighborSolicitation hosts mac target).ip6_src
      = lastMatchingHostAddress hosts target := by
  refine ⟨?_, rfl, rfl, ?_⟩
  · show solicitedNodeMulticast target = ip6SnmBase ||| target % 2 ^ 24
    unfold solicitedNodeMulticast
    rw [Nat.lor_comm]
    congr 1
    have h := Nat.and_pow_two_sub_one_eq_mod target 24
    norm_num at h
    exact h
  · show hosts.foldl
        (fun src h => if h.network.containsAddr target then h.address else src)
        ip6Unspecified = lastMatchingHostAddress hosts target
    rw [foldl_src_eq]
    rfl

/-- Counterexample to C7 as stated: for the key `2001:db8::1` in the
refresh window, the sweep's solicitation is NOT addressed to the key
itself; it goes to the key's solicited-node multicast address
`ff02::1:ff00:1`, a multicast destination. -/
theorem refresh_solicitation_unicast_cex :
    ((maintainCache 56 60 5 [] 9
        [(0x20010db8000000000000000000000001, ⟨77, false, 0, 2⟩)]).2.map
      Icmp6Tx.ip6_dst = [0xff0200000000000000000001ff000001]) ∧
    (0xff0200000000000000000001ff000001 : Nat)
      ≠ 0x20010db8000000000000000000000001 ∧
    isMulticast 0xff0200000000000000000001ff000001 = true := by
  refine ⟨?_, by decide, by decide⟩
  rfl

/-- C7 (amended): when the maintenance sweep performs the opportunistic
refresh of an expiring used entry, the solicitation it emits for the key
is the same multicast-addressed Neighbor Solicitation as on a lookup
miss: its destination is the key's solicited-node multicast address (not
the key itself). -/
theorem refresh_solicitation_spec (now maxAge rt : Int)
    (hosts : List Ip6Host) (mac : Nat) (c : NdCacheMap)
    (hnod : (cKeys c).Nodup) (k : Nat) (e : CacheEntry)
    (hfind : cFind c k = some e) (hperm : e.permanent = false)
    (hexp : ¬ now - e.creation_time > maxAge)
    (href : now - e.creation_time > maxAge - rt) (hhit : e.hit_count ≠ 0) :
    (maintainCache now maxAge rt hosts mac c).2.filter (isNsFor k)
      = [sendIcmp6NeighborSolicitation hosts mac k] ∧
    (sendIcmp6NeighborSolicitation hosts mac k).ip6_dst
      = solicitedNodeMulticast k := by
  have h := maintain_fold_spec now maxAge rt hosts mac (cKeys c) hnod
    (mem_cKeys_of_cFind hfind) (c, []) hnod hfind rfl
  unfold sweepPost at h
  rw [if_neg (by rw [hperm]; exact Bool.false_ne_true),
      if_neg hexp, if_pos ⟨href, hhit⟩] at h
  exact ⟨h.2, rfl⟩

/-- Witness for C7 (amended): the same concrete refresh scenario. -/
theorem refresh_solicitation_spec_witness :
    (maintainCache 56 60 5 [] 9 [(5, (⟨77, false, 0, 2⟩ : CacheEntry))]).2.filter
        (isNsFor 5)
      = [sendIcmp6NeighborSolicitation [] 9 5] ∧
    (sendIcmp6NeighborSolicitation [] 9 5).ip6_dst
      = solicitedNodeMulticast 5 :=
  refresh_solicitation_spec 56 60 5 [] 9 [(5, ⟨77, false, 0, 2⟩)]
    (by decide) 5 ⟨77, false, 0, 2⟩ rfl rfl (by decide) (by decide) (by decide)

/-- One intervening public operation that is not an `add` for `K` (and,
for a sweep, runs before `K`'s hard expiry) keeps `K`'s binding intact:
same MAC, creation time and permanent flag. -/
theorem runOp_intact (maxAge rt : Int) (hosts : List Ip6Host) (mac : Nat)
    (K M : Nat) (ct : Int) (op : StackOp)
    (hop : opOk K (ct + maxAge) op = true)
    (c : NdCacheMap) (hc : entryIntact K M ct c) :
    entryIntact K M ct (runOp maxAge rt hosts mac c op) := by
  obtain ⟨hnod, e, hfind, hmac, hct, hperm⟩ := hc
  cases op with
  | addOp t k m =>
    have hk : K ≠ k := by
      intro he
      simp [opOk, he.symm] at hop
    exact ⟨cKeys_cSet_nodup _ _ hnod, e,
      (cFind_cSet_ne c _ hk).trans hfind, hmac, hct, hperm⟩
  | findOp k =>
    show entryIntact K M ct (findEntry hosts mac c k).cache
    unfold findEntry
    cases hf : cFind c k with
    | none => exact ⟨hnod, e, hfind, hmac, hct, hperm⟩
    | some e' =>
      by_cases hkK : k = K
      · subst hkK
        rw [hfind] at hf
        obtain rfl := Option.some.inj hf
        exact ⟨cKeys_cSet_nodup _ _ hnod, _, cFind_cSet_self c k _,
          hmac, hct, hperm⟩
      · have hK : K ≠ k := fun he => hkK he.symm
        exact ⟨cKeys_cSet_nodup _ _ hnod, e,
          (cFind_cSet_ne c _ hK).trans hfind, hmac, hct, hperm⟩
  | sweepOp t =>
    have ht : t ≤ ct + maxAge := by simpa [opOk] using hop
    show entryIntact K M ct (maintainCache t maxAge rt hosts mac c).1
    unfold maintainCache
    have hpost := maintain_fold_spec t maxAge rt hosts mac (cKeys c) hnod
      (mem_cKeys_of_cFind hfind) (c, []) hnod hfind rfl
    have hnod' := maintain_fold_nodup t maxAge rt hosts mac (cKeys c) (c, []) hnod
    unfold sweepPost at hpost
    rw [if_neg (by rw [hperm]; exact Bool.false_ne_true)] at hpost
    rw [if_neg (by rw [hct]; omega)] at hpost
    by_cases href : t - e.creation_time > maxAge - rt ∧ e.hit_count ≠ 0
    · rw [if_pos href] at hpost
      exact ⟨hnod', _, hpost.1, hmac, hct, hperm⟩
    · rw [if_neg href] at hpost
      exact ⟨hnod', e, hpost.1, hmac, hct, hperm⟩

/-- A sequence of such operations keeps `K`'s binding intact. -/
theorem runOps_intact (maxAge rt : Int) (hosts : List Ip6Host) (mac : Nat)
    (K M : Nat) (ct : Int) (ops : List StackOp)
    (hops : ∀ op ∈ ops, opOk K (ct + maxAge) op = true)
    (c : NdCacheMap) (hc : entryIntact K M ct c) :
    entryIntact K M ct (runOps maxAge rt hosts mac c ops) := by
  induction ops generalizing c with
  | nil => exact hc
  | cons op t ih =>
    rw [runOps, List.foldl_cons]
    exact ih (fun o ho => hops o (List.mem_cons_of_mem _ ho)) _
      (runOp_intact maxAge rt hosts mac K M ct op
        (hops op (List.mem_cons_self _ _)) c hc)

/-- C3: Add/lookup round trip. `add_entry K M` at time `now`
unconditionally overwrites `K`'s binding with a fresh entry
(`mac_address = M`, `hit_count = 0`, `permanent = false`,
`creation_time = now`); and after it, under any sequence of further
operations none of which re-adds `K` and whose sweeps all run within
`MAX_AGE` of the add, a lookup of `K` returns `M` and emits no
solicitation. -/
theorem add_entry_round_trip (now maxAge rt : Int) (hosts : List Ip6Host)
    (mac : Nat) (c : NdCacheMap) (hnod : (cKeys c).Nodup) (K M : Nat)
    (ops : List StackOp)
    (hops : ∀ op ∈ ops, opOk K (now + maxAge) op = true) :
    cFind (addEntry now c K M) K = some (mkCacheEntry M now) ∧
    (findEntry hosts mac
        (runOps maxAge rt hosts mac (addEntry now c K M) ops) K).result
      = some M ∧
    (findEntry hosts mac
        (runOps maxAge rt hosts mac (addEntry now c K M) ops) K).txs
      = [] := by
  have h0 : entryIntact K M now (addEntry now c K M) :=
    ⟨cKeys_cSet_nodup _ _ hnod, mkCacheEntry M now,
      cFind_cSet_self _ _ _, rfl, rfl, rfl⟩
  obtain ⟨hnod', e, hfind, hmac, hct, hperm⟩ :=
    runOps_intact maxAge rt hosts mac K M now ops hops _ h0
  refine ⟨cFind_cSet_self _ _ _, ?_, ?_⟩
  · unfold findEntry
    rw [hfind]
    simp [hmac]
  · unfold findEntry
    rw [hfind]

/-- Witness for C3: add `5 ↦ 77` at time 0, then a foreign lookup, a
sweep at time 10 and a foreign add; the lookup of 5 still returns 77. -/
theorem add_entry_round_trip_witness :
    ((∀ op ∈ [StackOp.findOp 3, StackOp.sweepOp 10, StackOp.addOp 2 7 99],
        opOk 5 (0 + 60) op = true)) ∧
    cFind (addEntry 0 [] 5 77) 5 = some (mkCacheEntry 77 0) ∧
    (findEntry [] 9
        (runOps 60 5 [] 9 (addEntry 0 [] 5 77)
          [StackOp.findOp 3, StackOp.sweepOp 10, StackOp.addOp 2 7 99]) 5).result
      = some 77 ∧
    (findEntry [] 9
        (runOps 60 5 [] 9 (addEntry 0 [] 5 77)
          [StackOp.findOp 3, StackOp.sweepOp 10, StackOp.addOp 2 7 99]) 5).txs
      = [] :=
  ⟨by decide,
   add_entry_round_trip 0 60 5 [] 9 [] (by decide) 5 77
     [StackOp.findOp 3, StackOp.sweepOp 10, StackOp.addOp 2 7 99] (by decide)⟩

/-- C4: Inbound Neighbor Solicitation handling. If the NS target is not
one of the stack's unicast addresses the packet is dropped with no state
change and no emission. Otherwise the cache gains `(ip6.src ↦ slla)`
exactly when `ip6.src` is neither unspecified nor multicast and an SLLA
option is present, and one Neighbor Advertisement is emitted with
`src = ns_target`, `dst = ff02::1` for a DAD probe (unspecified source)
and `dst = ip6.src` otherwise, hop limit 255, `S = ¬dad`, `O = dad`,
`target = ns_target` and a TLLA option carrying the stack's MAC. -/
theorem phrx_ns_spec (sp : UdpMetadata → List Nat) (so : Nat → Option Nat)
    (now : Int) (self : PacketHandler) (ip6_src ns_target : Nat)
    (slla : Option Nat) :
    (ns_target ∉ self.ip6_unicast →
      phrxIcmp6 sp so now self (.neighborSolicitation ip6_src ns_target slla)
        = { handler := self, txs := [], notified := none }) ∧
    (ns_target ∈ self.ip6_unicast →
      (∀ m, slla = some m → isUnspecified ip6_src = false →
          isMulticast ip6_src = false →
        (phrxIcmp6 sp so now self
            (.neighborSolicitation ip6_src ns_target slla)).handler.icmp6_nd_cache
          = addEntry now self.icmp6_nd_cache ip6_src m) ∧
      ((slla = none ∨ isUnspecified ip6_src = true ∨ isMulticast ip6_src = true) →
        (phrxIcmp6 sp so now self
            (.neighborSolicitation ip6_src ns_target slla)).handler.icmp6_nd_cache
          = self.icmp6_nd_cache) ∧
      (phrxIcmp6 sp so now self
          (.neighborSolicitation ip6_src ns_target slla)).txs
        = [{ ip6_src := ns_target
             ip6_dst := if isUnspecified ip6_src = true then ip6AllNodes else ip6_src
             ip6_hop := 255
             body := .neighborAdvertisement (!(isUnspecified ip6_src))
               (isUnspecified ip6_src) ns_target [.tlla self.mac_unicast] }] ∧
      (phrxIcmp6 sp so now self
          (.neighborSolicitation ip6_src ns_target slla)).notified = none) := by
  constructor
  · intro h
    simp only [phrxIcmp6]
    rw [if_pos h]
  · intro h
    have hnn : ¬ ns_target ∉ self.ip6_unicast := not_not_intro h
    refine ⟨?_, ?_, ?_, ?_⟩
    · intro m hm hu hmc
      subst hm
      simp only [phrxIcmp6]
      rw [if_neg hnn]
      simp [hu, hmc]
    · intro hcase
      simp only [phrxIcmp6]
      rw [if_neg hnn]
      rcases hcase with hm | hu | hmc
      · subst hm
        rfl
      · cases slla with
        | none => rfl
        | some m => simp [hu]
      · cases slla with
        | none => rfl
        | some m => simp [hmc]
    · simp only [phrxIcmp6]
      rw [if_neg hnn]
    · simp only [phrxIcmp6]
      rw [if_neg hnn]

/-- Witness for C4: an NS from `5` (neither unspecified nor multicast)
with an SLLA, targeting the stack address `1`: the cache absorbs the
SLLA and one NA goes back to `5` with `S` set and `O` clear. -/
theorem phrx_ns_spec_witness :
    ((phrxIcmp6 (fun _ => []) (fun _ => none) 0
        ⟨[], [1], [], 9, none, none, false, [], false⟩
        (.neighborSolicitation 5 1 (some 171))).handler.icmp6_nd_cache
      = addEntry 0 [] 5 171) ∧
    (phrxIcmp6 (fun _ => []) (fun _ => none) 0
        ⟨[], [1], [], 9, none, none, false, [], false⟩
        (.neighborSolicitation 5 2 (some 171))
      = { handler := ⟨[], [1], [], 9, none, none, false, [], false⟩
          txs := [], notified := none }) ∧
    ((phrxIcmp6 (fun _ => []) (fun _ => none) 0
        ⟨[], [1], [], 9, none, none, false, [], false⟩
        (.neighborSolicitation 0 1 none)).handler.icmp6_nd_cache = []) :=
  ⟨((phrx_ns_spec (fun _ => []) (fun _ => none) 0
      ⟨[], [1], [], 9, none, none, false, [], false⟩
      5 1 (some 171)).2 (by decide)).1 171 rfl (by decide) (by decide),
   (phrx_ns_spec (fun _ => []) (fun _ => none) 0
      ⟨[], [1], [], 9, none, none, false, [], false⟩
      5 2 (some 171)).1 (by decide),
   ((phrx_ns_spec (fun _ => []) (fun _ => none) 0
      ⟨[], [1], [], 9, none, none, false, [], false⟩
      0 1 none).2 (by decide)).2.1 (Or.inl rfl)⟩

/-- C5: Inbound Neighbor Advertisement handling. If the NA target equals
the current DAD candidate, the TLLA (possibly absent) is recorded into
the DAD state and the DAD signal released, with the neighbor cache left
unmodified even when a TLLA is present; otherwise a present TLLA is
absorbed as `(na_target ↦ tlla)`; otherwise nothing changes. -/
theorem phrx_na_spec (sp : UdpMetadata → List Nat) (so : Nat → Option Nat)
    (now : Int) (self : PacketHandler) (ip6_src na_target : Nat)
    (tlla : Option Nat) :
    (self.ip6_unicast_candidate = some na_target →
      phrxIcmp6 sp so now self (.neighborAdvertisement ip6_src na_target tlla)
        = { handler := { self with
              icmp6_nd_dad_tlla := tlla
              event_icmp6_nd_dad_released := true }
            txs := []
            notified := none } ∧
      (phrxIcmp6 sp so now self
          (.neighborAdvertisement ip6_src na_target tlla)).handler.icmp6_nd_cache
        = self.icmp6_nd_cache) ∧
    (self.ip6_unicast_candidate ≠ some na_target →
      (∀ m, tlla = some m →
        phrxIcmp6 sp so now self (.neighborAdvertisement ip6_src na_target tlla)
          = { handler := { self with
                icmp6_nd_cache := addEntry now self.icmp6_nd_cache na_target m }
              txs := []
              notified := none }) ∧
      (tlla = none →
        phrxIcmp6 sp so now self (.neighborAdvertisement ip6_src na_target tlla)
          = { handler := self, txs := [], notified := none })) := by
  constructor
  · intro h
    simp only [phrxIcmp6]
    rw [h]
    simp
  · intro h
    have hcond : (match self.ip6_unicast_candidate with
        | some c => na_target == c
        | none => false) = false := by
      cases hc : self.ip6_unicast_candidate with
      | none => rfl
      | some cand =>
        have hne : na_target ≠ cand := by
          intro he
          exact h (by rw [hc, he])
        simp [hne]
    constructor
    · intro m hm
      subst hm
      simp only [phrxIcmp6]
      rw [hcond]
      rfl
    · intro hm
      subst hm
      simp only [phrxIcmp6]
      rw [hcond]
      rfl

/-- Witness for C5: an NA for the DAD candidate `7` with a TLLA releases
the DAD signal and leaves the cache alone. -/
theorem phrx_na_spec_witness :
    (phrxIcmp6 (fun _ => []) (fun _ => none) 0
        ⟨[], [1], [], 9, some 7, none, false, [], false⟩
        (.neighborAdvertisement 5 7 (some 171))
      = ⟨⟨[], [1], [], 9, some 7, some 171, true, [], false⟩, [], none⟩) ∧
    (phrxIcmp6 (fun _ => []) (fun _ => none) 0
        ⟨[], [1], [], 9, some 7, none, false, [], false⟩
        (.neighborAdvertisement 5 8 (some 171))
      = ⟨⟨addEntry 0 [] 8 171, [1], [], 9, some 7, none, false, [], false⟩,
         [], none⟩) ∧
    (phrxIcmp6 (fun _ => []) (fun _ => none) 0
        ⟨[], [1], [], 9, some 7, none, false, [], false⟩
        (.neighborAdvertisement 5 8 none)
      = ⟨⟨[], [1], [], 9, some 7, none, false, [], false⟩, [], none⟩) :=
  ⟨((phrx_na_spec (fun _ => []) (fun _ => none) 0
      ⟨[], [1], [], 9, some 7, none, false, [], false⟩ 5 7 (some 171)).1 rfl).1,
   ((phrx_na_spec (fun _ => []) (fun _ => none) 0
      ⟨[], [1], [], 9, some 7, none, false, [], false⟩ 5 8 (some 171)).2
      (by decide)).1 171 rfl,
   ((phrx_na_spec (fun _ => []) (fun _ => none) 0
      ⟨[], [1], [], 9, some 7, none, false, [], false⟩ 5 8 none).2
      (by decide)).2 rfl⟩

/-- C8: Hop-limit emission invariant. Every ICMPv6 message the core
emits — the cache's Neighbor Solicitations (lookup miss and sweep
refresh), the Neighbor Advertisement reply, the Echo Reply — is handed
to the TX dispatcher with hop limit 255. -/
theorem hop_limit_emit_invariant (now maxAge rt now' : Int)
    (hosts : List Ip6Host) (mac k : Nat) (c : NdCacheMap)
    (sp : UdpMetadata → List Nat) (so : Nat → Option Nat)
    (self : PacketHandler) (pkt : Icmp6Rx) (tx : Icmp6Tx)
    (h : tx ∈ (findEntry hosts mac c k).txs ∨
         tx ∈ (maintainCache now maxAge rt hosts mac c).2 ∨
         tx ∈ (phrxIcmp6 sp so now' self pkt).txs) :
    tx.ip6_hop = 255 := by
  rcases h with h | h | h
  · exact findEntry_hop hosts mac c k h
  · exact maintainCache_hop now maxAge rt hosts mac c h
  · exact phrx_hop sp so now' self pkt h

/-- Witness for C8: the solicitation emitted by a lookup miss on the
empty cache carries hop limit 255. -/
theorem hop_limit_emit_invariant_witness :
    (sendIcmp6NeighborSolicitation [] 9 5).ip6_hop = 255 :=
  hop_limit_emit_invariant 0 60 5 0 [] 9 5 [] (fun _ => []) (fun _ => none)
    { icmp6_nd_cache := [], ip6_unicast := [], ip6_host := [],
      mac_unicast := 9, ip6_unicast_candidate := none,
      icmp6_nd_dad_tlla := none, event_icmp6_nd_dad_released := false,
      icmp6_ra_prefixes := [], event_icmp6_ra_released := false }
    (.routerSolicitation 0) (sendIcmp6NeighborSolicitation [] 9 5)
    (Or.inl (by decide))

/-- C9: Destination Unreachable handling. The handler state and the TX
path are untouched, and a socket is notified exactly when the embedded
payload is at least `IP6_HEADER_LEN + UDP_HEADER_LEN` bytes, its first
nibble is 6 and its byte 6 is the UDP protocol number; the notified
socket is the one registered under the first matching pattern derived
from the 4-tuple (local IP = bytes 8..24, remote IP = bytes 24..40,
local port = bytes 40..42, remote port = bytes 42..44), and `none`
otherwise. -/
theorem phrx_unreachable_spec (sp : UdpMetadata → List Nat)
    (so : Nat → Option Nat) (now : Int) (self : PacketHandler)
    (frame : List Nat) :
    (phrxIcmp6 sp so now self (.unreachable frame)).handler = self ∧
    (phrxIcmp6 sp so now self (.unreachable frame)).txs = [] ∧
    (phrxIcmp6 sp so now self (.unreachable frame)).notified
      = (if frame.length ≥ IP6_HEADER_LEN + UDP_HEADER_LEN
            ∧ (frame.getD 0 0) >>> 4 = 6
            ∧ frame.getD 6 0 = IP6_NEXT_HEADER_UDP then
          ((sp (udpMetadataOfFrame frame)).find?
              (fun p => (so p).isSome)).bind so
        else none) := by
  by_cases hg : frame.length ≥ IP6_HEADER_LEN + UDP_HEADER_LEN
      ∧ (frame.getD 0 0) >>> 4 = 6 ∧ frame.getD 6 0 = IP6_NEXT_HEADER_UDP
  · refine ⟨?_, ?_, ?_⟩
    · simp only [phrxIcmp6]
      rw [if_pos hg]
    · simp only [phrxIcmp6]
      rw [if_pos hg]
    · simp only [phrxIcmp6]
      rw [if_pos hg, if_pos hg]
      exact findSocket_eq_find? so (sp (udpMetadataOfFrame frame))
  · refine ⟨?_, ?_, ?_⟩
    · simp only [phrxIcmp6]
      rw [if_neg hg]
    · simp only [phrxIcmp6]
      rw [if_neg hg]
    · simp only [phrxIcmp6]
      rw [if_neg hg, if_neg hg]

/-- C10 (implicit): every cache state reachable through the public
operations contains no permanent entry — `add_entry` always constructs
its `CacheEntry` with the default `permanent = false`, no other
operation inserts entries, and the remaining operations preserve the
flag — so the sweep's permanent-skip branch is never taken on reachable
states. -/
theorem reachable_no_permanent (maxAge rt : Int) (hosts : List Ip6Host)
    (mac : Nat) (c : NdCacheMap)
    (h : ReachableCache maxAge rt hosts mac c) :
    ∀ p ∈ c, (p : Nat × CacheEntry).2.permanent = false := by
  induction h with
  | empty =>
    intro p hp
    cases hp
  | addStep now k m hc ih => exact addEntry_no_permanent now k m ih
  | findStep k hc ih =>
    intro p hp
    unfold findEntry at hp
    cases hf : cFind _ k with
    | none =>
      rw [hf] at hp
      exact ih p hp
    | some e =>
      rw [hf] at hp
      have hp' : p ∈ cSet _ k { e with hit_count := e.hit_count + 1 } := hp
      rcases mem_cSet hp' with h' | h'
      · exact ih p h'
      · rw [h']
        have he := ih (k, e) (cFind_mem hf)
        exact he
  | sweepStep now hc ih =>
    intro p hp
    unfold maintainCache at hp
    exact maintain_fold_no_permanent now maxAge rt hosts mac _ _ ih p hp
  | phrxStep sp so now self pkt hc ih =>
    exact phrx_no_permanent sp so now self pkt ih

/-- Witness for C10: the state after one `add_entry` on the empty cache
is reachable and contains no permanent entry. -/
theorem reachable_no_permanent_witness :
    ((5, mkCacheEntry 77 0) : Nat × CacheEntry).2.permanent = false :=
  reachable_no_permanent 60 5 [] 9 _
    (ReachableCache.addStep 0 5 77 ReachableCache.empty)
    (5, mkCacheEntry 77 0) (by decide)

end Web3TCP
